import Mathlib

/-!
Verification development for the appyter-catalog Harmonizome ETL notebooks
(ABA_Harmonizome_ETL/ABA.ipynb and Reactome_Harmonizome_ETL/Reactome.ipynb).

The second part of ABA.ipynb ("Dataset Pair Attribute Similarity") is a
set-overlap engine: it loads two GMT gene-set libraries with `load_gmt`,
computes a gene universe, and runs a pairwise Jaccard / Fisher loop, followed
by q-value adjustment and a top-association table.  Those parts are embedded
here over `Finset String` gene sets, `List (String × Finset String)` libraries
(Python dicts as insertion-ordered association lists), and `ℚ` values.
Fallible Python code (exceptions) is embedded with `Option` / `Except`.
The external `fisher.pvalue(...).two_tail` call is an imported C library, not
repository code; it is carried as an abstract function parameter
`fp : ℤ → ℤ → ℤ → ℤ → ℚ` of the four contingency-table cells passed to it.
-/

/-! ### Python dict embedding

A Python dict is an insertion-ordered association list with unique keys:
assignment to an existing key replaces the value in place, assignment to a new
key appends at the end. -/

def dictInsert {α : Type} : List (String × α) → String → α → List (String × α)
  | [], k, v => [(k, v)]
  | (k0, v0) :: rest, k, v =>
      if k0 = k then (k, v) :: rest else (k0, v0) :: dictInsert rest k v

def dictGet {α : Type} : List (String × α) → String → Option α
  | [], _ => none
  | (k0, v0) :: rest, k => if k0 = k then some v0 else dictGet rest k

/-! ### load_gmt (ABA.ipynb)

```python
def load_gmt(file):
    gmt = {}
    for line in file:
        term, description, *geneset = line.strip().split('\t')
        gmt[term] = set(geneset)
    return gmt
```

A line whose `strip().split('\t')` has fewer than two fields makes the
starred unpacking raise `ValueError`; the message is the fixed CPython
unpacking message and does not mention the line itself. -/

/-- Python `str.strip()` default whitespace (ASCII part). -/
def isPySpace (c : Char) : Bool :=
  c == ' ' || c == '\t' || c == '\n' || c == '\r' || c == '\x0b' || c == '\x0c'

/-- Python `line.strip()`: drop leading and trailing whitespace. -/
def pyStrip (s : String) : String :=
  String.mk (((s.toList.dropWhile isPySpace).reverse.dropWhile isPySpace).reverse)

def splitTabAux : List Char → List Char → List String
  | [], acc => [String.mk acc.reverse]
  | c :: cs, acc =>
      if c = '\t' then String.mk acc.reverse :: splitTabAux cs []
      else splitTabAux cs (c :: acc)

/-- Python `s.split('\t')`: split on every tab; `"".split('\t') == ['']`. -/
def splitTab (s : String) : List String := splitTabAux s.toList []

def unpackErr0 : String := "not enough values to unpack (expected at least 2, got 0)"

def unpackErr1 : String := "not enough values to unpack (expected at least 2, got 1)"

def finsetOfList (l : List String) : Finset String := l.foldr insert ∅

def load_gmtAux : List (String × Finset String) → List String →
    Except String (List (String × Finset String))
  | gmt, [] => Except.ok gmt
  | gmt, line :: rest =>
      match splitTab (pyStrip line) with
      | term :: _description :: geneset =>
          load_gmtAux (dictInsert gmt term (finsetOfList geneset)) rest
      | [_] => Except.error unpackErr1
      | [] => Except.error unpackErr0

def load_gmt (lines : List String) : Except String (List (String × Finset String)) :=
  load_gmtAux [] lines

/-! ### The set-overlap engine (ABA.ipynb, pairwise loop)

```python
genes = set()
for geneset in ds1.values(): genes.update(geneset)
for geneset in ds2.values(): genes.update(geneset)
genes = len(genes)

for i in tqdm(ds1):
    iset = ds1[i]
    for j in ds2:
        jset = ds2[j]
        intersection = iset.intersection(jset)
        a = len(intersection)
        b = len(iset.difference(jset))
        c = len(set.difference(iset))
        d = genes - a - b - c
        jaccard.loc[i,j] = a/(a+b+c)
        fisherp.loc[i,j] = fisher.pvalue(a, b, c, d).two_tail
        intersect[i,j] = intersection
```

Note the expression `set.difference(iset)`: it calls the unbound method
`set.difference` with `iset` as `self` and no further arguments, which
returns a copy of `iset`; hence `c = len(iset)`, not `len(jset - iset)`.
The division `a/(a+b+c)` raises `ZeroDivisionError` when the denominator is
zero, which aborts the whole loop; this is embedded as `none`. -/

abbrev Library := List (String × Finset String)

def genesUniverse (ds1 ds2 : Library) : Finset String :=
  (ds1.foldl (fun acc p => acc ∪ p.2) ∅) ∪ (ds2.foldl (fun acc p => acc ∪ p.2) ∅)

def nGenes (ds1 ds2 : Library) : ℕ := (genesUniverse ds1 ds2).card

/-- The four integers passed to `fisher.pvalue(a, b, c, d)` for one pair:
`a = len(iset ∩ jset)`, `b = len(iset - jset)`, `c = len(set.difference(iset))
= len(iset)`, `d = genes - a - b - c`. -/
def fisherArgs (n : ℕ) (iset jset : Finset String) : ℤ × ℤ × ℤ × ℤ :=
  let a : ℕ := (iset ∩ jset).card
  let b : ℕ := (iset \ jset).card
  let c : ℕ := iset.card
  ((a : ℤ), (b : ℤ), (c : ℤ), (n : ℤ) - a - b - c)

/-- Modelled from the spec: the contingency table the spec prescribes for a
pair, `[[i, only_a], [only_b, neither]]` with `i = |a ∩ b|`,
`only_a = |a \ b|`, `only_b = |b \ a|`, `neither = n - i - only_a - only_b`
(the implementation of this table is what the pairwise loop was meant to
compute; compare with `fisherArgs`). -/
def specFisherArgs (n : ℕ) (iset jset : Finset String) : ℤ × ℤ × ℤ × ℤ :=
  let i : ℕ := (iset ∩ jset).card
  let oa : ℕ := (iset \ jset).card
  let ob : ℕ := (jset \ iset).card
  ((i : ℤ), (oa : ℤ), (ob : ℤ), (n : ℤ) - i - oa - ob)

/-- One cell of the pairwise loop: the Jaccard entry, the Fisher p-value entry
(through the abstract two-tail function `fp`) and the recorded intersection.
`none` embeds the `ZeroDivisionError` raised by `a/(a+b+c)` when the
denominator is zero. -/
structure RawCell where
  a1 : String
  a2 : String
  jac : ℚ
  p : ℚ
  inter : Finset String
deriving DecidableEq

def pairCell (n : ℕ) (fp : ℤ → ℤ → ℤ → ℤ → ℚ)
    (i j : String × Finset String) : Option RawCell :=
  let inter := i.2 ∩ j.2
  let a : ℕ := inter.card
  let b : ℕ := (i.2 \ j.2).card
  let c : ℕ := i.2.card
  if a + b + c = 0 then none
  else some { a1 := i.1, a2 := j.1,
              jac := (a : ℚ) / ((a : ℚ) + (b : ℚ) + (c : ℚ)),
              p := fp (a : ℤ) (b : ℤ) (c : ℤ) ((n : ℤ) - a - b - c),
              inter := inter }

/-- Row-major iteration order of the nested `for i in ds1: for j in ds2:` loop. -/
def pairsOf (ds1 ds2 : Library) : List ((String × Finset String) × (String × Finset String)) :=
  ds1.flatMap (fun i => ds2.map (fun j => (i, j)))

/-- Sequence a list of fallible computations, aborting at the first failure
(the Python loop propagates the first exception). -/
def optionTraverse {α β : Type} (f : α → Option β) : List α → Option (List β)
  | [] => some []
  | x :: xs =>
      match f x, optionTraverse f xs with
      | some y, some ys => some (y :: ys)
      | _, _ => none

def overlapLoop (fp : ℤ → ℤ → ℤ → ℤ → ℚ) (ds1 ds2 : Library) : Option (List RawCell) :=
  optionTraverse (fun ij => pairCell (nGenes ds1 ds2) fp ij.1 ij.2) (pairsOf ds1 ds2)

/-! ### q-values and the ranked tables (ABA.ipynb)

```python
ftop = fisherp.stack().to_frame('p')
ftop['q'] = ftop['p']*ftop.shape[0]/ftop['p'].rank()
ftop = ftop.sort_values('q')

top = pd.concat([jtop,ftop], axis=1)
        .sort_values(['Jaccard','q'], ascending=[False,True])[:1000].reset_index()
top['intersect'] = top.apply(lambda x: ','.join(intersect[...]), axis=1)
```

`Series.rank()` defaults to ascending average ranks: the rank of `x` is
(number of entries `< x`) + ((number of entries `= x`) + 1)/2. -/

def rankAvg (ps : List ℚ) (x : ℚ) : ℚ :=
  ((ps.countP (fun y => decide (y < x)) : ℚ)) +
    (((ps.countP (fun y => decide (y = x)) : ℚ)) + 1) / 2

structure PairEntry extends RawCell where
  q : ℚ
deriving DecidableEq

def attachQ (rows : List RawCell) : List PairEntry :=
  let ps := rows.map (fun r => r.p)
  let n : ℚ := (rows.length : ℚ)
  rows.map (fun r => { toRawCell := r, q := r.p * n / rankAvg ps r.p })

def analysisRows (fp : ℤ → ℤ → ℤ → ℤ → ℚ) (ds1 ds2 : Library) : Option (List PairEntry) :=
  (overlapLoop fp ds1 ds2).map attachQ

/-- Sort key of `ftop.sort_values('q')`: ascending q. -/
def qleRel (x y : (String × String) × ℚ × ℚ) : Prop := x.2.2 ≤ y.2.2

instance : DecidableRel qleRel := fun x y => inferInstanceAs (Decidable (x.2.2 ≤ y.2.2))

instance : IsTotal ((String × String) × ℚ × ℚ) qleRel := ⟨fun a b => le_total a.2.2 b.2.2⟩

instance : IsTrans ((String × String) × ℚ × ℚ) qleRel := ⟨fun _ _ _ h h2 => le_trans h h2⟩

def ftopProj (rows : List PairEntry) : List ((String × String) × ℚ × ℚ) :=
  rows.map (fun e => ((e.a1, e.a2), e.p, e.q))

def ftopOf (fp : ℤ → ℤ → ℤ → ℤ → ℚ) (ds1 ds2 : Library) :
    Option (List ((String × String) × ℚ × ℚ)) :=
  (analysisRows fp ds1 ds2).map (fun rows => List.insertionSort qleRel (ftopProj rows))

/-- Sort key of `top.sort_values(['Jaccard','q'], ascending=[False,True])`:
Jaccard descending, ties broken by q ascending. -/
def topRel (x y : PairEntry) : Prop := y.jac < x.jac ∨ (x.jac = y.jac ∧ x.q ≤ y.q)

instance : DecidableRel topRel := fun x y =>
  inferInstanceAs (Decidable (y.jac < x.jac ∨ (x.jac = y.jac ∧ x.q ≤ y.q)))

instance : IsTotal PairEntry topRel := by
  constructor
  intro a b
  rcases lt_trichotomy a.jac b.jac with h | h | h
  · exact Or.inr (Or.inl h)
  · rcases le_total a.q b.q with hq | hq
    · exact Or.inl (Or.inr ⟨h, hq⟩)
    · exact Or.inr (Or.inr ⟨h.symm, hq⟩)
  · exact Or.inl (Or.inl h)

instance : IsTrans PairEntry topRel := by
  constructor
  intro a b c hab hbc
  rcases hab with h1 | ⟨h1, hq1⟩
  · rcases hbc with h2 | ⟨h2, _⟩
    · exact Or.inl (lt_trans h2 h1)
    · exact Or.inl (h2 ▸ h1)
  · rcases hbc with h2 | ⟨h2, hq2⟩
    · exact Or.inl (h1 ▸ h2)
    · exact Or.inr ⟨h1.trans h2, hq1.trans hq2⟩

def topOf (fp : ℤ → ℤ → ℤ → ℤ → ℚ) (ds1 ds2 : Library) : Option (List PairEntry) :=
  (analysisRows fp ds1 ds2).map (fun rows => (List.insertionSort topRel rows).take 1000)

/-! ### The symbol-remapping loop (Reactome.ipynb)

```python
dupes = df.shape[0]
count = 0
df = uf.map_symbols(df, symbol_lookup, remove_duplicates=True)

while (dupes-df.shape[0]-count) != 0:
    df = uf.map_symbols(df, symbol_lookup, remove_duplicates=True)
    count = (dupes-df.shape[0])
```

`uf.map_symbols` lives in the external `harmonizome.utility_functions`
module, so it is carried as an abstract `step : α → α` together with the row
counter `rows : α → ℕ` (`df.shape[0]`).  The loop state is the pair
`(df, count)`; the guard compares Python integers, hence `ℤ`.  The loop is
embedded with explicit fuel, `none` standing for non-termination within the
given fuel. -/

def mapLoopGo {α : Type} (step : α → α) (rows : α → ℕ) (dupes : ℤ) :
    ℕ → α × ℤ → Option (α × ℤ)
  | 0, s => if dupes - (rows s.1 : ℤ) - s.2 = 0 then some s else none
  | fuel + 1, s =>
      if dupes - (rows s.1 : ℤ) - s.2 = 0 then some s
      else
        let df2 := step s.1
        mapLoopGo step rows dupes fuel (df2, dupes - (rows df2 : ℤ))

def mapSymbolsFixpoint {α : Type} (step : α → α) (rows : α → ℕ) (fuel : ℕ) (df0 : α) :
    Option α :=
  let dupes : ℤ := (rows df0 : ℤ)
  let df1 := step df0
  (mapLoopGo step rows dupes fuel (df1, 0)).map Prod.fst

/-! ### The matrix normalization dataflow (ABA.ipynb)

The `uf.*` transforms live in the external `harmonizome.utility_functions`
module; only their call sites are in the notebook:

```python
matrix = uf.remove_impute(matrix)
matrix = uf.log2(matrix)
matrix = uf.quantile_normalize(matrix)
matrix = uf.zscore(matrix)
...
standard_matrix = uf.standardized_matrix(matrix)
...
ternary_matrix = uf.ternary_matrix(standard_matrix)
```

The dataflow is embedded as a trace of stage tags together with a semantic
interpretation of traces under arbitrary stage functions. -/

inductive Stage where
  | remove_impute
  | log2
  | quantile_normalize
  | zscore
  | standardized_matrix
  | ternary_matrix
deriving DecidableEq

/-- The chain of `uf` transforms successively assigned to `matrix` in
ABA.ipynb before the standardized/ternary steps. -/
def standardPipelineStages : List Stage :=
  [Stage.remove_impute, Stage.log2, Stage.quantile_normalize, Stage.zscore]

/-- The full chain producing `ternary_matrix` in ABA.ipynb:
`ternary_matrix = uf.ternary_matrix(uf.standardized_matrix(matrix))` where
`matrix` is the z-scored matrix. -/
def ternaryPipelineStages : List Stage :=
  standardPipelineStages ++ [Stage.standardized_matrix, Stage.ternary_matrix]

/-- Modelled from the spec: the stage order the spec states for the
normalization pipeline (filter+impute, log, quantile, z-score, then
ternarization directly on the z-scored matrix); compare with
`ternaryPipelineStages`. -/
def claimedPipelineStages : List Stage :=
  standardPipelineStages ++ [Stage.ternary_matrix]

/-- Run a trace of stages under an interpretation of each stage as a matrix
transform, each stage consuming the previous stage's output. -/
def runStages {M : Type} (interp : Stage → M → M) (tr : List Stage) (m : M) : M :=
  tr.foldl (fun acc st => interp st acc) m

/-! ### Helper lemmas -/

/-- A constant stand-in for the external two-tail Fisher function, used to
instantiate concrete runs. -/
def fpConst : ℤ → ℤ → ℤ → ℤ → ℚ := fun _ _ _ _ => 0

/-- Modelled from the spec: `Jaccard(a,b) = i / (i + only_a + only_b)`,
undefined when the union is empty; compare with the `jac` field computed by
`pairCell`. -/
def specJaccard (iset jset : Finset String) : Option ℚ :=
  if iset ∪ jset = ∅ then none
  else some (((iset ∩ jset).card : ℚ) /
    (((iset ∩ jset).card : ℚ) + ((iset \ jset).card : ℚ) + ((jset \ iset).card : ℚ)))

lemma optionTraverse_mem {α β : Type} (f : α → Option β) :
    ∀ (l : List α) (out : List β), optionTraverse f l = some out →
      ∀ y ∈ out, ∃ x ∈ l, f x = some y := by
  intro l
  induction l with
  | nil =>
      intro out h y hy
      simp only [optionTraverse, Option.some.injEq] at h
      subst h
      simp at hy
  | cons x xs ih =>
      intro out h y hy
      simp only [optionTraverse] at h
      cases hfx : f x with
      | none => rw [hfx] at h; exact absurd h (by simp)
      | some b =>
          cases hxs : optionTraverse f xs with
          | none => rw [hfx, hxs] at h; exact absurd h (by simp)
          | some bs =>
              rw [hfx, hxs] at h
              simp only [Option.some.injEq] at h
              subst h
              rcases List.mem_cons.mp hy with rfl | hmem
              · exact ⟨x, List.mem_cons_self x xs, hfx⟩
              · obtain ⟨z, hz, hfz⟩ := ih bs hxs y hmem
                exact ⟨z, List.mem_cons_of_mem x hz, hfz⟩

lemma pairsOf_mem {ds1 ds2 : Library}
    {ij : (String × Finset String) × (String × Finset String)}
    (h : ij ∈ pairsOf ds1 ds2) : ij.1 ∈ ds1 ∧ ij.2 ∈ ds2 := by
  unfold pairsOf at h
  rw [List.mem_flatMap] at h
  obtain ⟨i, hi, hmem⟩ := h
  rw [List.mem_map] at hmem
  obtain ⟨j, hj, rfl⟩ := hmem
  exact ⟨hi, hj⟩

lemma pairCell_some {n : ℕ} {fp : ℤ → ℤ → ℤ → ℤ → ℚ}
    {i j : String × Finset String} {c : RawCell}
    (h : pairCell n fp i j = some c) :
    c.a1 = i.1 ∧ c.a2 = j.1 ∧ c.inter = i.2 ∩ j.2 := by
  unfold pairCell at h
  dsimp only at h
  split at h
  · exact absurd h (by simp)
  · rw [Option.some.injEq] at h
    subst h
    exact ⟨rfl, rfl, rfl⟩

lemma attachQ_mem {cells : List RawCell} {e : PairEntry} (he : e ∈ attachQ cells) :
    e.toRawCell ∈ cells := by
  unfold attachQ at he
  rw [List.mem_map] at he
  obtain ⟨c, hc, rfl⟩ := he
  exact hc

lemma attachQ_q {cells : List RawCell} {e : PairEntry} (he : e ∈ attachQ cells) :
    e.q = e.p * (cells.length : ℚ) / rankAvg (cells.map (fun c => c.p)) e.p := by
  unfold attachQ at he
  rw [List.mem_map] at he
  obtain ⟨c, _, rfl⟩ := he
  rfl

lemma attachQ_map_p (cells : List RawCell) :
    (attachQ cells).map (fun e => e.p) = cells.map (fun c => c.p) := by
  unfold attachQ
  rw [List.map_map]
  rfl

lemma attachQ_length (cells : List RawCell) : (attachQ cells).length = cells.length := by
  unfold attachQ
  rw [List.length_map]

/-! ### C6 helper lemmas: the remapping loop stops after at most one body
iteration, because `count` is recomputed from the post-body row count that the
guard immediately re-reads. -/

lemma mapLoopGo_exit {α : Type} (step : α → α) (rows : α → ℕ) (dupes : ℤ)
    (s : α × ℤ) (h : dupes - (rows s.1 : ℤ) - s.2 = 0) :
    ∀ fuel, mapLoopGo step rows dupes fuel s = some s := by
  intro fuel
  cases fuel with
  | zero => simp [mapLoopGo, h]
  | succ n => simp [mapLoopGo, h]

lemma mapLoopGo_body {α : Type} (step : α → α) (rows : α → ℕ) (dupes : ℤ)
    (s : α × ℤ) (h : ¬ (dupes - (rows s.1 : ℤ) - s.2 = 0)) (fuel : ℕ) :
    mapLoopGo step rows dupes (fuel + 1) s =
      some (step s.1, dupes - (rows (step s.1) : ℤ)) := by
  rw [mapLoopGo]
  rw [if_neg h]
  exact mapLoopGo_exit step rows dupes _ (by ring) fuel

/-- C6: the fixed-point loop around `map_symbols` executes its body at most
once: whatever the abstract `map_symbols` (`step`) and row counter (`rows`)
are, for any positive fuel the loop terminates and returns `step df0` when the
first invocation left the row count unchanged, and `step (step df0)` otherwise
— even when that second invocation still changed the row count.  The concrete
run drops one row per invocation from a three-row frame: the loop returns the
one-row frame `["r3"]` although the invocation that produced it shrank the
frame from two rows to one (2 ≠ 1), so the loop does not in fact iterate until
the row count stabilizes. -/
theorem C6_loop_single_iteration :
    (∀ (α : Type) (step : α → α) (rows : α → ℕ) (df0 : α) (fuel : ℕ),
        mapSymbolsFixpoint step rows (fuel + 1) df0 =
          some (if rows (step df0) = rows df0 then step df0 else step (step df0))) ∧
    mapSymbolsFixpoint (fun l : List String => l.tail) List.length 5 ["r1", "r2", "r3"] =
      some ["r3"] ∧
    (["r2", "r3"] : List String).length ≠ (["r3"] : List String).length := by
  refine ⟨?_, rfl, by decide⟩
  intro α step rows df0 fuel
  unfold mapSymbolsFixpoint
  dsimp only
  by_cases h : ((rows df0 : ℤ) - (rows (step df0) : ℤ) - 0 = 0)
  · have heq : rows (step df0) = rows df0 := by omega
    rw [mapLoopGo_exit step rows ((rows df0 : ℤ)) (step df0, 0) h (fuel + 1)]
    simp [heq]
  · have hne : ¬ (rows (step df0) = rows df0) := by omega
    rw [mapLoopGo_body step rows ((rows df0 : ℤ)) (step df0, 0) h fuel]
    simp [hne]

/-- C1: at the pair of identical singleton gene sets, the pairwise loop's
Jaccard entry is 1/2, because `c = len(set.difference(iset)) = len(iset)`
rather than `len(jset - iset)`; the claimed value
`i / (i + only_a + only_b)` (computed by `specJaccard`) is 1.  The loop's
entry therefore does not equal the claimed quotient. -/
theorem C1_jaccard_entry_bug :
    (pairCell 1 fpConst ("T1", {"G1"}) ("T2", {"G1"})).map RawCell.jac = some (1/2) ∧
    specJaccard {"G1"} {"G1"} = some 1 ∧
    (pairCell 1 fpConst ("T1", {"G1"}) ("T2", {"G1"})).map RawCell.jac ≠
      specJaccard {"G1"} {"G1"} := by
  refine ⟨by norm_num [pairCell], by norm_num [specJaccard], ?_⟩
  intro hcontra
  have h1 : (pairCell 1 fpConst ("T1", {"G1"}) ("T2", {"G1"})).map RawCell.jac =
      some (1/2) := by norm_num [pairCell]
  have h2 : specJaccard {"G1"} {"G1"} = some 1 := by norm_num [specJaccard]
  rw [h1, h2] at hcontra
  rw [Option.some.injEq] at hcontra
  norm_num at hcontra

/-- C2: the four cells passed to `fisher.pvalue` are not the claimed
contingency table.  For `iset = {G1, G2}`, `jset = {G1}` over the two-gene
universe the loop passes `(1, 1, 2, -2)` — `c` is `len(iset)` and the
`neither` cell is negative — while the claimed table
`[[i, only_a], [only_b, neither]]` is `(1, 1, 0, 0)`. -/
theorem C2_fisher_table_bug :
    nGenes [("T1", {"G1", "G2"})] [("T2", {"G1"})] = 2 ∧
    fisherArgs 2 {"G1", "G2"} {"G1"} = (1, 1, 2, -2) ∧
    specFisherArgs 2 {"G1", "G2"} {"G1"} = (1, 1, 0, 0) ∧
    fisherArgs 2 {"G1", "G2"} {"G1"} ≠ specFisherArgs 2 {"G1", "G2"} {"G1"} := by
  refine ⟨rfl, rfl, rfl, ?_⟩
  intro hcontra
  rw [show fisherArgs 2 {"G1", "G2"} {"G1"} = (1, 1, 2, -2) from rfl,
    show specFisherArgs 2 {"G1", "G2"} {"G1"} = (1, 1, 0, 0) from rfl] at hcontra
  simp at hcontra

/-- C3: for the gene set `{G1, G2}` appearing identically in both libraries,
the computed Jaccard entry is 1/2, not 1: the entry is
`a/(a + b + len(iset))` = 2/(2+0+2). -/
theorem C3_jaccard_diagonal_bug :
    (pairCell 2 fpConst ("T1", {"G1", "G2"}) ("T2", {"G1", "G2"})).map RawCell.jac =
      some (1/2) ∧
    ((1 : ℚ)/2) ≠ 1 := by
  constructor
  · norm_num [pairCell, show ({"G1", "G2"} : Finset String).card = 2 from rfl,
      show (({"G1", "G2"} : Finset String) \ {"G1", "G2"}).card = 0 from rfl,
      show (({"G1", "G2"} : Finset String) ∩ {"G1", "G2"}).card = 2 from rfl]
  · norm_num

/-- C4 counterexample: at the pair of empty gene sets (whose union is empty)
the Jaccard computation does not emit 0 — the division `a/(a+b+c)` raises
`ZeroDivisionError` (embedded as `none`), so no entry is produced. -/
theorem C4_cex_zero_union_raises :
    ((∅ : Finset String) ∪ (∅ : Finset String) = ∅) ∧
    pairCell 0 fpConst ("T1", (∅ : Finset String)) ("T2", (∅ : Finset String)) = none ∧
    (pairCell 0 fpConst ("T1", (∅ : Finset String)) ("T2", (∅ : Finset String))).map
      RawCell.jac ≠ some 0 := by
  refine ⟨by simp, rfl, ?_⟩
  intro hcontra
  rw [show pairCell 0 fpConst ("T1", (∅ : Finset String)) ("T2", (∅ : Finset String)) =
    none from rfl] at hcontra
  simp at hcontra

/-- C4 (amended): for any pair of gene sets whose union is empty, the
Jaccard computation raises a division-by-zero error (the loop cell is `none`)
rather than emitting any value. -/
theorem C4_zero_union_is_error (n : ℕ) (fp : ℤ → ℤ → ℤ → ℤ → ℚ)
    (i j : String × Finset String) (h : i.2 ∪ j.2 = ∅) :
    pairCell n fp i j = none := by
  obtain ⟨hi, hj⟩ := Finset.union_eq_empty.mp h
  simp [pairCell, hi, hj]

/-- C4 witness: the amended statement at the concrete empty pair. -/
theorem C4_zero_union_is_error_witness :
    pairCell 3 fpConst ("T1", (∅ : Finset String)) ("T2", (∅ : Finset String)) = none :=
  C4_zero_union_is_error 3 fpConst ("T1", ∅) ("T2", ∅) (by simp)

/-- C9 counterexample: the dataflow that produces `ternary_matrix` in
ABA.ipynb is not the claimed chain ending with ternarization applied to the
z-scored matrix: an extra `standardized_matrix` stage sits between z-scoring
and ternarization, and under an interpretation in which that stage is not the
identity the two pipelines produce different matrices from the same input. -/
theorem C9_cex_pipeline_traces_differ :
    ternaryPipelineStages ≠ claimedPipelineStages ∧
    runStages (fun st (x : ℤ) => if st = Stage.standardized_matrix then x + 1 else x)
        ternaryPipelineStages 0 ≠
      runStages (fun st (x : ℤ) => if st = Stage.standardized_matrix then x + 1 else x)
        claimedPipelineStages 0 := by
  constructor
  · decide
  · decide

/-- C9 (amended): under every interpretation of the stages, the notebook's
dataflow applies missing-data filtering+imputation, log transform, quantile
normalization and row z-scoring in that order, each consuming the previous
stage's output, and then applies the ternarization stage to the output of the
standardized-matrix stage, which itself consumes the z-scored matrix. -/
theorem C9_stage_order (M : Type) (interp : Stage → M → M) (m : M) :
    runStages interp ternaryPipelineStages m =
      interp Stage.ternary_matrix (interp Stage.standardized_matrix
        (runStages interp standardPipelineStages m)) ∧
    runStages interp standardPipelineStages m =
      interp Stage.zscore (interp Stage.quantile_normalize
        (interp Stage.log2 (interp Stage.remove_impute m))) :=
  ⟨rfl, rfl⟩

/-! ### load_gmt lemmas -/

lemma load_gmtAux_append (ys : List String) :
    ∀ (xs : List String) (gmt : Library),
      load_gmtAux gmt (xs ++ ys) =
        match load_gmtAux gmt xs with
        | Except.ok g => load_gmtAux g ys
        | Except.error e => Except.error e := by
  intro xs
  induction xs with
  | nil => intro gmt; rfl
  | cons x rest ih =>
      intro gmt
      rw [List.cons_append]
      rw [load_gmtAux, load_gmtAux]
      split
      · exact ih _
      · rfl
      · rfl

lemma load_gmtAux_error (bad : String) (post : List String)
    (hbad : (splitTab (pyStrip bad)).length < 2) :
    ∀ (pre : List String) (gmt : Library),
      (∀ l ∈ pre, 2 ≤ (splitTab (pyStrip l)).length) →
      ∃ msg, load_gmtAux gmt (pre ++ bad :: post) = Except.error msg := by
  intro pre
  induction pre with
  | nil =>
      intro gmt _
      rw [List.nil_append, load_gmtAux]
      split
      · rename_i term description geneset heq
        rw [heq] at hbad
        simp at hbad
        omega
      · exact ⟨unpackErr1, rfl⟩
      · exact ⟨unpackErr0, rfl⟩
  | cons l rest ih =>
      intro gmt hwf
      rw [List.cons_append, load_gmtAux]
      split
      · exact ih _ (fun x hx => hwf x (List.mem_cons_of_mem l hx))
      · rename_i heq
        have := hwf l (List.mem_cons_self l rest)
        rw [heq] at this
        simp at this
      · rename_i heq
        have := hwf l (List.mem_cons_self l rest)
        rw [heq] at this
        simp at this

lemma dictGet_dictInsert_self {α : Type} (k : String) (v : α) :
    ∀ d : List (String × α), dictGet (dictInsert d k v) k = some v := by
  intro d
  induction d with
  | nil => simp [dictInsert, dictGet]
  | cons p rest ih =>
      obtain ⟨k0, v0⟩ := p
      by_cases h : k0 = k
      · simp [dictInsert, dictGet, h]
      · simp [dictInsert, dictGet, h, ih]

/-- C5 counterexample: a malformed line does fail fast, but the raised
error is the fixed CPython unpacking message: two different malformed lines
produce literally the same error, and the message does not contain the
offending line, so the parsing error does not name the offending line. -/
theorem C5_cex_error_does_not_name_line :
    load_gmt ["FOO"] = Except.error unpackErr1 ∧
    load_gmt ["BARBAZ"] = Except.error unpackErr1 ∧
    ¬ ("FOO".toList <:+: unpackErr1.toList) ∧
    ¬ ("BARBAZ".toList <:+: unpackErr1.toList) := by
  refine ⟨rfl, rfl, by decide, by decide⟩

/-- C5 (amended): loading a gene-set library fails fast with an unpacking
error — one not naming the offending line — as soon as some line has fewer
than the two required tab-delimited fields, and two empty input libraries
yield empty result tables (both the ranked p/q table and the top-association
table), not an error. -/
theorem C5_malformed_fails_empty_ok :
    (∀ (pre post : List String) (bad : String),
        (∀ l ∈ pre, 2 ≤ (splitTab (pyStrip l)).length) →
        (splitTab (pyStrip bad)).length < 2 →
        ∃ msg, load_gmt (pre ++ bad :: post) = Except.error msg) ∧
    (∀ fp, ftopOf fp [] [] = some [] ∧ topOf fp [] [] = some []) := by
  constructor
  · intro pre post bad hwf hbad
    exact load_gmtAux_error bad post hbad pre [] hwf
  · intro fp
    exact ⟨rfl, rfl⟩

/-- C5 witness: the amended statement at a concrete malformed file and the
concrete empty libraries. -/
theorem C5_malformed_fails_empty_ok_witness :
    (∃ msg, load_gmt ["FOO"] = Except.error msg) ∧
    ftopOf fpConst [] [] = some [] :=
  ⟨C5_malformed_fails_empty_ok.1 [] [] "FOO" (by simp) (by decide),
   (C5_malformed_fails_empty_ok.2 fpConst).1⟩

/-- C10: appending a well-formed line for term `t` to any successfully
parsed gene-set file makes `t` map to exactly that line's gene set — any
earlier binding of `t` is silently overwritten and no error is raised; with
no gene fields after term and description the stored set is the empty set. -/
theorem C10_last_duplicate_wins :
    ∀ (lines : List String) (gmt : Library), load_gmt lines = Except.ok gmt →
    ∀ (line term desc : String) (gs : List String),
      splitTab (pyStrip line) = term :: desc :: gs →
      load_gmt (lines ++ [line]) = Except.ok (dictInsert gmt term (finsetOfList gs)) ∧
      dictGet (dictInsert gmt term (finsetOfList gs)) term = some (finsetOfList gs) := by
  intro lines gmt h line term desc gs hsp
  constructor
  · unfold load_gmt at h ⊢
    rw [load_gmtAux_append [line] lines []]
    rw [h]
    dsimp only
    rw [load_gmtAux]
    rw [hsp]
    rfl
  · exact dictGet_dictInsert_self term (finsetOfList gs) gmt

/-- C10 witness: a file whose two lines both use term `X`, the second with no
gene fields: the parsed library maps `X` to the empty set (the last line),
the earlier `{G1, G2}` binding being discarded without an error. -/
theorem C10_last_duplicate_wins_witness :
    load_gmt (["X\tD\tG1\tG2"] ++ ["X\tD2"]) =
      Except.ok (dictInsert [("X", finsetOfList ["G1", "G2"])] "X" (finsetOfList [])) ∧
    dictGet (dictInsert [("X", finsetOfList ["G1", "G2"])] "X" (finsetOfList [])) "X" =
      some (finsetOfList []) :=
  C10_last_duplicate_wins ["X\tD\tG1\tG2"] [("X", finsetOfList ["G1", "G2"])] rfl
    "X\tD2" "X" "D2" [] (by decide)

/-- C7: whenever the engine completes, the ranked p/q table `ftop` is a
permutation of the per-pair (p, q) rows sorted ascending by q, and every
row's q-value equals `p * N / rank(p)` where `N` is the number of pairs and
`rank(p)` is the (average-method, ascending) rank of the row's p-value among
the p column. -/
theorem C7_qvalue_formula_and_sort (fp : ℤ → ℤ → ℤ → ℤ → ℚ) (ds1 ds2 : Library)
    (t : List ((String × String) × ℚ × ℚ)) (h : ftopOf fp ds1 ds2 = some t) :
    ∃ rows : List PairEntry,
      analysisRows fp ds1 ds2 = some rows ∧
      t.Perm (ftopProj rows) ∧
      List.Sorted qleRel t ∧
      (∀ e ∈ ftopProj rows,
        e.2.2 = e.2.1 * ((ftopProj rows).length : ℚ) /
          rankAvg ((ftopProj rows).map (fun x => x.2.1)) e.2.1) := by
  unfold ftopOf at h
  rw [Option.map_eq_some'] at h
  obtain ⟨rows, hrows, ht⟩ := h
  refine ⟨rows, hrows, ?_, ?_, ?_⟩
  · rw [← ht]
    exact List.perm_insertionSort qleRel (ftopProj rows)
  · rw [← ht]
    exact List.sorted_insertionSort qleRel (ftopProj rows)
  · intro e he
    unfold analysisRows at hrows
    rw [Option.map_eq_some'] at hrows
    obtain ⟨cells, _, hAttach⟩ := hrows
    subst hAttach
    unfold ftopProj at he
    rw [List.mem_map] at he
    obtain ⟨r, hr, rfl⟩ := he
    have hlen : ((ftopProj (attachQ cells)).length : ℚ) = (cells.length : ℚ) := by
      rw [ftopProj, List.length_map, attachQ_length]
    have hmap : (ftopProj (attachQ cells)).map (fun x => x.2.1) =
        cells.map (fun c => c.p) := by
      rw [ftopProj, List.map_map]
      exact attachQ_map_p cells
    rw [hlen, hmap]
    exact attachQ_q hr

/-- C7 witness: the theorem at a concrete one-pair run. -/
theorem C7_qvalue_formula_and_sort_witness :
    ∃ rows : List PairEntry,
      analysisRows fpConst [("T1", {"G1", "G2"})] [("T2", {"G1"})] = some rows ∧
      [(("T1", "T2"), (0 : ℚ), (0 : ℚ))].Perm (ftopProj rows) ∧
      List.Sorted qleRel [(("T1", "T2"), (0 : ℚ), (0 : ℚ))] ∧
      (∀ e ∈ ftopProj rows,
        e.2.2 = e.2.1 * ((ftopProj rows).length : ℚ) /
          rankAvg ((ftopProj rows).map (fun x => x.2.1)) e.2.1) :=
  C7_qvalue_formula_and_sort fpConst [("T1", {"G1", "G2"})] [("T2", {"G1"})]
    [(("T1", "T2"), (0 : ℚ), (0 : ℚ))]
    (by norm_num [ftopOf, analysisRows, overlapLoop, pairsOf, optionTraverse, pairCell,
      attachQ, ftopProj, rankAvg, fpConst, nGenes, genesUniverse])

/-- C8: whenever the engine completes, the top-association table is the first
1000 entries of a permutation of all (a, b) pair rows sorted by Jaccard
descending with ties broken by q ascending, and every pair row is annotated
with exactly the intersection of the pair's two gene sets. -/
theorem C8_top_table (fp : ℤ → ℤ → ℤ → ℤ → ℚ) (ds1 ds2 : Library)
    (t : List PairEntry) (h : topOf fp ds1 ds2 = some t) :
    ∃ rows sortedRows : List PairEntry,
      analysisRows fp ds1 ds2 = some rows ∧
      t = sortedRows.take 1000 ∧
      sortedRows.Perm rows ∧
      List.Sorted topRel sortedRows ∧
      (∀ e ∈ rows, ∃ iv jv : Finset String,
        (e.a1, iv) ∈ ds1 ∧ (e.a2, jv) ∈ ds2 ∧ e.inter = iv ∩ jv) := by
  unfold topOf at h
  rw [Option.map_eq_some'] at h
  obtain ⟨rows, hrows, ht⟩ := h
  refine ⟨rows, List.insertionSort topRel rows, hrows, ht.symm,
    List.perm_insertionSort topRel rows, List.sorted_insertionSort topRel rows, ?_⟩
  intro e he
  unfold analysisRows at hrows
  rw [Option.map_eq_some'] at hrows
  obtain ⟨cells, hcells, hAttach⟩ := hrows
  subst hAttach
  have hc : e.toRawCell ∈ cells := attachQ_mem he
  unfold overlapLoop at hcells
  obtain ⟨ij, hij, hcell⟩ := optionTraverse_mem _ _ _ hcells e.toRawCell hc
  obtain ⟨hds1, hds2⟩ := pairsOf_mem hij
  obtain ⟨ha1, ha2, hinter⟩ := pairCell_some hcell
  refine ⟨ij.1.2, ij.2.2, ?_, ?_, hinter⟩
  · rw [show e.a1 = ij.1.1 from ha1]
    exact hds1
  · rw [show e.a2 = ij.2.1 from ha2]
    exact hds2

/-- C8 witness: the theorem at a concrete one-pair run. -/
theorem C8_top_table_witness :
    ∃ rows sortedRows : List PairEntry,
      analysisRows fpConst [("T1", {"G1", "G2"})] [("T2", {"G1"})] = some rows ∧
      [({ a1 := "T1", a2 := "T2", jac := 1/4, p := 0, inter := {"G1"}, q := 0 } :
          PairEntry)] = sortedRows.take 1000 ∧
      sortedRows.Perm rows ∧
      List.Sorted topRel sortedRows ∧
      (∀ e ∈ rows, ∃ iv jv : Finset String,
        (e.a1, iv) ∈ [("T1", ({"G1", "G2"} : Finset String))] ∧
        (e.a2, jv) ∈ [("T2", ({"G1"} : Finset String))] ∧ e.inter = iv ∩ jv) :=
  C8_top_table fpConst [("T1", {"G1", "G2"})] [("T2", {"G1"})]
    [{ a1 := "T1", a2 := "T2", jac := 1/4, p := 0, inter := {"G1"}, q := 0 }]
    (by norm_num [topOf, analysisRows, overlapLoop, pairsOf, optionTraverse, pairCell,
      attachQ, rankAvg, fpConst, nGenes, genesUniverse,
      show (({"G1", "G2"} : Finset String) \ {"G1"}).card = 1 from rfl,
      show ({"G1", "G2"} : Finset String).card = 2 from rfl,
      show (({"G1", "G2"} : Finset String) ∩ {"G1"}).card = 1 from rfl,
      show (({"G1", "G2"} : Finset String) ∩ {"G1"}) = {"G1"} from rfl])
